import Mathlib

/-!
Verification of the local-workflow core of cloudify-plugins-common
(`cloudify/workflows/local.py`): the instance store with optimistic
concurrency control (class `Storage` with its two backends
`InMemoryStorage` and `FileStorage`), the workflow parameter
merge/validation (`Environment._merge_and_validate_execution_parameters`),
construction-time operation-mapping validation
(`Environment._prepare_nodes_and_instances` / `_get_module_method`) and
deployment-output resolution (`Environment.outputs`).

The Python code is shallowly embedded: dictionaries become association
lists (Python dict / filesystem enumeration order is unspecified, so both
are modelled in insertion order), in-place mutation becomes explicit state
passing, and raised exceptions become `Except` errors whose constructors
carry exactly the data interpolated into the exception messages.
-/

namespace CloudifyLocal

/-- Property values stored in runtime properties, parameter defaults and
output literals.  The Python code treats these opaquely; a small closed
type with decidable equality suffices. -/
inductive Val where
  | null : Val
  | str : String → Val
  | num : Int → Val
  | bool : Bool → Val
  deriving DecidableEq, Repr

/-- `m.get(k)` on a Python dict modelled as an association list
(first matching key wins; keys are unique in every dict we build). -/
def assocGet {α : Type} (m : List (String × α)) (k : String) : Option α :=
  match m with
  | [] => none
  | (k', v) :: rest => if k' = k then some v else assocGet rest k

/-- `m[k] = v` on a Python dict: replace in place if the key is present,
append otherwise. -/
def assocSet {α : Type} (m : List (String × α)) (k : String) (v : α) :
    List (String × α) :=
  match m with
  | [] => [(k, v)]
  | (k', v') :: rest =>
      if k' = k then (k, v) :: rest else (k', v') :: assocSet rest k v

/-- The key set of an association list. -/
def assocKeys {α : Type} : List (String × α) → List String
  | [] => []
  | (k, _) :: rest => k :: assocKeys rest

/-- A running node instance as stored by `Storage`
(`cloudify_rest_client.node_instances.NodeInstance` dict).  `state` and
`runtime_properties` may be absent/None in the underlying dict, hence
`Option`.  `version` is set to 0 by `Storage.__init__` and is the
optimistic-concurrency token. -/
structure NodeInstance where
  id : String
  node_id : String
  state : Option String
  runtime_properties : Option (List (String × Val))
  version : Nat
  deriving DecidableEq, Repr

/-- Errors raised by the storage layer.
`conflict` is `StorageConflictError` (version mismatch on a property-only
update); `instanceNotFound` is the `RuntimeError('Instance {} does not
exist')` raised by `Storage._get_node_instance` when `_load_instance`
returns None; `fileNotFound` is the IOError raised by
`FileStorage._load_instance` when `open` finds no file for the id;
`keyError` is the KeyError raised by `Storage._lock`'s
`self._locks[node_instance_id]` when the id has no lock. -/
inductive StorageErr where
  | conflict (version : Nat) (id : String) (current : Nat)
  | instanceNotFound (id : String)
  | fileNotFound (id : String)
  | keyError (id : String)
  deriving DecidableEq, Repr

/-- Whether a storage error is in the spec's NotFoundError taxonomy
(unknown instance id / missing file).  The designed not-found errors are
the instance-does-not-exist RuntimeError and the missing-file IOError; a
KeyError escaping from the internal lock-table lookup is not one of
them. -/
def StorageErr.isNotFound : StorageErr → Bool
  | .instanceNotFound _ => true
  | .fileNotFound _ => true
  | .conflict _ _ _ => false
  | .keyError _ => false

/-- `Storage._lock`: `self._locks[node_instance_id]`, a plain dict lookup
that raises KeyError when the id has no lock.  The lock table is built
once at construction from `_instance_ids()` and the instance set is fixed
for the store's lifetime, so its key set always equals the store's
current instance-id set; the model therefore keys it by the store's own
keys.  Acquiring the (reentrant) lock is itself a no-op in this
sequential model. -/
def lockOf (lock_keys : List String) (node_instance_id : String) :
    Except StorageErr Unit :=
  if node_instance_id ∈ lock_keys then .ok ()
  else .error (.keyError node_instance_id)

/-- `Storage.__init__`: build the id-keyed instance dict and set every
instance's version to 0. -/
def initInstances (node_instances : List NodeInstance) :
    List (String × NodeInstance) :=
  node_instances.foldl
    (fun m inst => assocSet m inst.id { inst with version := 0 }) []

/-- In-memory backend state: `InMemoryStorage._node_instances`. -/
structure MemStore where
  node_instances : List (String × NodeInstance)
  deriving DecidableEq, Repr

/-- File backend state: one file per instance id under the instances
directory.  A file's content is `json.dumps` of the instance dict;
since `json.loads ∘ json.dumps` is the identity on these records, the
content is modelled as the deserialized `NodeInstance` itself. -/
structure FileStore where
  files : List (String × NodeInstance)
  deriving DecidableEq, Repr

/-- Constructing `InMemoryStorage` from the plan's instance list. -/
def mkMemStore (node_instances : List NodeInstance) : MemStore :=
  { node_instances := initInstances node_instances }

/-- Constructing `FileStorage` from the plan's instance list when no
prior on-disk state exists: `Storage.__init__` runs, then every instance
of the initial snapshot is written to its own file and the snapshot is
discarded — the files become the source of truth. -/
def mkFileStore (node_instances : List NodeInstance) : FileStore :=
  { files := initInstances node_instances }

/-- `InMemoryStorage._load_instance`: a plain dict lookup, `None` when
the id is unknown (never raises). -/
def memLoadInstance (s : MemStore) (node_instance_id : String) :
    Except StorageErr (Option NodeInstance) :=
  .ok (assocGet s.node_instances node_instance_id)

/-- `FileStorage._load_instance`: acquire the instance's lock (a
KeyError from the lock table for an unknown id), then `open` the
instance's file and deserialize it; a missing file would make `open`
raise IOError, though every id that has a lock also has a file, so the
lock lookup fires first on unknown ids. -/
def fileLoadInstance (s : FileStore) (node_instance_id : String) :
    Except StorageErr (Option NodeInstance) :=
  match lockOf (assocKeys s.files) node_instance_id with
  | .error e => .error e
  | .ok _ =>
      match assocGet s.files node_instance_id with
      | none => .error (.fileNotFound node_instance_id)
      | some inst => .ok (some inst)

/-- `Storage._get_node_instance`: `_load_instance`, then raise
`RuntimeError('Instance {} does not exist')` on None. -/
def getNodeInstanceWith {σ : Type}
    (load : σ → String → Except StorageErr (Option NodeInstance))
    (s : σ) (node_instance_id : String) : Except StorageErr NodeInstance :=
  match load s node_instance_id with
  | .error e => .error e
  | .ok none => .error (.instanceNotFound node_instance_id)
  | .ok (some inst) => .ok inst

/-- The mutations `Storage.update_node_instance` performs on the loaded
instance once the update is accepted: `instance['version'] += 1`, then
`runtime_properties` (full replacement) and `state` are applied when
given. -/
def appliedUpdate (inst : NodeInstance)
    (runtime_properties : Option (List (String × Val)))
    (state : Option String) : NodeInstance :=
  let inst := { inst with version := inst.version + 1 }
  let inst :=
    match runtime_properties with
    | some rp => { inst with runtime_properties := some rp }
    | none => inst
  match state with
  | some st => { inst with state := some st }
  | none => inst

/-- `Storage.update_node_instance`, generic in the backend's
`_load_instance`/`_store_instance`: enter `with self._lock(id)` (a
KeyError from the lock table for an unknown id), then load the current
instance; if `state` is not given and `version` differs from the stored
version raise `StorageConflictError` (before any field of the instance is
touched); otherwise increment the version, apply `runtime_properties` and
`state` when given, and store the result (the lock is already held, so
`_store_instance`'s reentrant re-acquisition always succeeds). -/
def updateNodeInstanceWith {σ : Type}
    (load : σ → String → Except StorageErr (Option NodeInstance))
    (store : σ → NodeInstance → σ) (lock_keys : List String)
    (s : σ) (node_instance_id : String) (version : Nat)
    (runtime_properties : Option (List (String × Val)))
    (state : Option String) : Except StorageErr σ :=
  match lockOf lock_keys node_instance_id with
  | .error e => .error e
  | .ok _ =>
      match getNodeInstanceWith load s node_instance_id with
      | .error e => .error e
      | .ok inst =>
          if state = none ∧ version ≠ inst.version then
            .error (.conflict version node_instance_id inst.version)
          else
            .ok (store s (appliedUpdate inst runtime_properties state))

/-- `InMemoryStorage._store_instance` is `pass`; the write happens because
`update_node_instance` mutates the very dict held in `_node_instances`.
Net effect on the store: the entry for the instance's id now holds the
mutated instance. -/
def memStoreInstance (s : MemStore) (inst : NodeInstance) : MemStore :=
  { s with node_instances := assocSet s.node_instances inst.id inst }

/-- `FileStorage._store_instance`: overwrite the instance's file with the
serialized instance. -/
def fileStoreInstance (s : FileStore) (inst : NodeInstance) : FileStore :=
  { s with files := assocSet s.files inst.id inst }

/-- `InMemoryStorage.get_node_instance` (the deep copy is identity in a
pure model). -/
def MemStore.get_node_instance (s : MemStore) (node_instance_id : String) :
    Except StorageErr NodeInstance :=
  getNodeInstanceWith memLoadInstance s node_instance_id

/-- `FileStorage.get_node_instance`: a fresh read from disk. -/
def FileStore.get_node_instance (s : FileStore) (node_instance_id : String) :
    Except StorageErr NodeInstance :=
  getNodeInstanceWith fileLoadInstance s node_instance_id

/-- `Storage.update_node_instance` on the in-memory backend (the lock
table's key set coincides with the instance dict's key set). -/
def MemStore.update_node_instance (s : MemStore) (node_instance_id : String)
    (version : Nat) (runtime_properties : Option (List (String × Val)))
    (state : Option String) : Except StorageErr MemStore :=
  updateNodeInstanceWith memLoadInstance memStoreInstance
    (assocKeys s.node_instances)
    s node_instance_id version runtime_properties state

/-- `Storage.update_node_instance` on the file backend (the lock table's
key set coincides with the set of instance files). -/
def FileStore.update_node_instance (s : FileStore) (node_instance_id : String)
    (version : Nat) (runtime_properties : Option (List (String × Val)))
    (state : Option String) : Except StorageErr FileStore :=
  updateNodeInstanceWith fileLoadInstance fileStoreInstance
    (assocKeys s.files)
    s node_instance_id version runtime_properties state

/-- `InMemoryStorage.get_node_instances`: all instances, in the dict's
enumeration order (modelled as insertion order). -/
def MemStore.get_node_instances (s : MemStore) : List NodeInstance :=
  s.node_instances.map (fun p => p.2)

/-- `FileStorage.get_node_instances`: one `_get_node_instance` per file in
the instances directory (directory enumeration modelled in the same
insertion order). -/
def FileStore.get_node_instances (s : FileStore) : List NodeInstance :=
  s.files.map (fun p => p.2)

/-- One store operation of the sequences over which the two backends are
compared. -/
inductive StoreOp where
  | getInst (node_instance_id : String)
  | getAllInsts
  | upd (node_instance_id : String) (version : Nat)
      (runtime_properties : Option (List (String × Val)))
      (state : Option String)
  deriving DecidableEq, Repr

/-- What a caller observes from one store operation: the returned
instance(s), a silent success (update returns None), or the raised
exception. -/
inductive Obs where
  | inst (i : NodeInstance)
  | insts (is : List NodeInstance)
  | done
  | err (e : StorageErr)
  deriving DecidableEq, Repr

/-- Run one operation against the in-memory backend; an exception leaves
the store as it was. -/
def memStep (s : MemStore) (op : StoreOp) : Obs × MemStore :=
  match op with
  | .getInst id =>
      match s.get_node_instance id with
      | .ok i => (.inst i, s)
      | .error e => (.err e, s)
  | .getAllInsts => (.insts s.get_node_instances, s)
  | .upd id ver rp st =>
      match s.update_node_instance id ver rp st with
      | .ok s' => (.done, s')
      | .error e => (.err e, s)

/-- Run one operation against the file backend; an exception leaves the
files as they were. -/
def fileStep (s : FileStore) (op : StoreOp) : Obs × FileStore :=
  match op with
  | .getInst id =>
      match s.get_node_instance id with
      | .ok i => (.inst i, s)
      | .error e => (.err e, s)
  | .getAllInsts => (.insts s.get_node_instances, s)
  | .upd id ver rp st =>
      match s.update_node_instance id ver rp st with
      | .ok s' => (.done, s')
      | .error e => (.err e, s)

/-- Run a sequence of operations on the in-memory backend, collecting the
observations. -/
def memRun (s : MemStore) : List StoreOp → List Obs × MemStore
  | [] => ([], s)
  | op :: ops =>
      let (o, s') := memStep s op
      let (os, s'') := memRun s' ops
      (o :: os, s'')

/-- Run a sequence of operations on the file backend, collecting the
observations. -/
def fileRun (s : FileStore) : List StoreOp → List Obs × FileStore
  | [] => ([], s)
  | op :: ops =>
      let (o, s') := fileStep s op
      let (os, s'') := fileRun s' ops
      (o :: os, s'')

/-! ## Dispatch engine: parameter merge and validation -/

/-- One declared workflow parameter: the Python dict has an optional
`default` key (`none` here means the key is absent, i.e. the parameter is
mandatory). -/
structure WorkflowParam where
  default : Option Val
  deriving DecidableEq, Repr

/-- Errors raised by `Environment.execute` before the workflow
implementation is invoked.  `missingParams` and `customParams` carry the
full name lists interpolated into the two `ValueError` messages of
`_merge_and_validate_execution_parameters`; `unknownWorkflow` is the
`ValueError` for an unknown workflow name; `config` wraps the mapping
errors of `_get_module_method`. -/
inductive ConfigErr where
  | importError (module_name : String) (node : String) (tpe : String)
  | attributeError (module_name : String) (method_name : String)
      (node : String) (tpe : String)
  deriving DecidableEq, Repr

inductive ExecErr where
  | unknownWorkflow (name : String)
  | config (e : ConfigErr)
  | missingParams (workflow_name : String) (names : List String)
  | customParams (workflow_name : String) (names : List String)
  deriving DecidableEq, Repr

/-- The `missing_mandatory_parameters` set collected by the first loop of
`_merge_and_validate_execution_parameters`: declared parameters with no
`default` key that the caller did not supply. -/
def missingOf (workflow_parameters : List (String × WorkflowParam))
    (execution_parameters : List (String × Val)) : List String :=
  (workflow_parameters.filter (fun p =>
    p.2.default = none ∧ assocGet execution_parameters p.1 = none)).map
    (fun p => p.1)

/-- The `merged_parameters` built by the first loop: for each declared
parameter the caller's value when supplied, else the declared default;
a mandatory unsupplied parameter contributes nothing (`continue`). -/
def mergedOf (workflow_parameters : List (String × WorkflowParam))
    (execution_parameters : List (String × Val)) : List (String × Val) :=
  workflow_parameters.filterMap (fun p =>
    match assocGet execution_parameters p.1 with
    | some v => some (p.1, v)
    | none =>
        match p.2.default with
        | some d => some (p.1, d)
        | none => none)

/-- The `custom_parameters`: caller-supplied parameters not declared by
the workflow. -/
def customOf (workflow_parameters : List (String × WorkflowParam))
    (execution_parameters : List (String × Val)) : List (String × Val) :=
  execution_parameters.filter (fun p =>
    assocGet workflow_parameters p.1 = none)

/-- `Environment._merge_and_validate_execution_parameters`.
First pass over the declared parameters: a parameter without a default
that the caller did not supply is collected into the missing set (and not
merged); otherwise the caller's value, or the declared default, is merged.
If any mandatory parameter is missing, fail listing all of them.  Then the
caller-supplied parameters not declared by the workflow are the custom
parameters: if custom parameters are not allowed and there is at least
one, fail listing all of them; otherwise they are merged in on top
(`merged_parameters.update(custom_parameters)` — custom keys are disjoint
from declared keys, so this is concatenation). -/
def merge_and_validate_execution_parameters
    (workflow_parameters : List (String × WorkflowParam))
    (workflow_name : String)
    (execution_parameters : List (String × Val))
    (allow_custom_parameters : Bool) :
    Except ExecErr (List (String × Val)) :=
  let missing_mandatory_parameters :=
    missingOf workflow_parameters execution_parameters
  if missing_mandatory_parameters ≠ [] then
    .error (.missingParams workflow_name missing_mandatory_parameters)
  else
    let custom_parameters :=
      customOf workflow_parameters execution_parameters
    if allow_custom_parameters = false ∧ custom_parameters ≠ [] then
      .error (.customParams workflow_name
        (custom_parameters.map (fun p => p.1)))
    else
      .ok (mergedOf workflow_parameters execution_parameters
        ++ custom_parameters)

/-! ## Dispatch engine: operation/workflow resolution -/

/-- The host environment's importable modules: module name ↦ the names of
the attributes the module has.  Models `importlib.import_module` +
`getattr` for `Environment._get_module_method`. -/
structure ModuleEnv where
  modules : List (String × List String)
  deriving DecidableEq, Repr

/-- `path.split('.')` on the underlying characters: split at every dot,
keeping empty segments, as Python's `str.split` does. -/
def splitOnChar (c : Char) : List Char → List (List Char)
  | [] => [[]]
  | x :: xs =>
      if x = c then [] :: splitOnChar c xs
      else
        match splitOnChar c xs with
        | [] => [[x]]
        | g :: gs => (x :: g) :: gs

/-- `'.'.join(parts)`. -/
def joinDots : List String → String
  | [] => ""
  | [x] => x
  | x :: xs => x ++ "." ++ joinDots xs

/-- `Environment._get_module_method`: split the dotted path on `.`, load
the module named by everything before the last dot (ImportError
names the module, the node and the kind), then look up the final
attribute (AttributeError names the module, the attribute, the node and
the kind).  On success return the resolved (module, attribute) pair. -/
def get_module_method (menv : ModuleEnv) (module_method_path : String)
    (tpe : String) (node_name : String) :
    Except ConfigErr (String × String) :=
  let split := (splitOnChar '.' module_method_path.toList).map String.mk
  let module_name := joinDots split.dropLast
  let method_name := split.getLastD ""
  match assocGet menv.modules module_name with
  | none => .error (.importError module_name node_name tpe)
  | some attrs =>
      if method_name ∈ attrs then .ok (module_name, method_name)
      else .error (.attributeError module_name method_name node_name tpe)

/-- An operation descriptor: `{'operation': '<module>.<attribute>'}`. -/
structure Operation where
  operation : String
  deriving DecidableEq, Repr

/-- A relationship's two operation mappings (operation kind ↦
descriptor). -/
structure Relationship where
  source_operations : List (String × Operation)
  target_operations : List (String × Operation)
  deriving DecidableEq, Repr

/-- A plan node: id, its own operation mapping, and its relationships. -/
structure PNode where
  id : String
  operations : List (String × Operation)
  relationships : List Relationship
  deriving DecidableEq, Repr

/-- The operation descriptors validated for one node, each tagged with the
`tpe` string passed to `_get_module_method`, in the order
`_prepare_nodes_and_instances` visits them: the node's own operations,
then each relationship's source-side then target-side operations. -/
def nodeDescriptors (n : PNode) : List (String × Operation) :=
  n.operations.map (fun p => ("operations", p.2))
    ++ n.relationships.foldr
      (fun r acc =>
        r.source_operations.map (fun p => ("source_operations", p.2))
          ++ r.target_operations.map (fun p => ("target_operations", p.2))
          ++ acc) []

/-- Resolve every descriptor of a list in order, failing on the first
mapping error. -/
def scanDescriptors (menv : ModuleEnv) (node_id : String) :
    List (String × Operation) → Except ConfigErr Unit
  | [] => .ok ()
  | (tpe, op) :: rest =>
      match get_module_method menv op.operation tpe node_id with
      | .error e => .error e
      | .ok _ => scanDescriptors menv node_id rest

/-- The validation pass of `Environment._prepare_nodes_and_instances`
over all nodes. -/
def prepare_nodes (menv : ModuleEnv) : List PNode → Except ConfigErr Unit
  | [] => .ok ()
  | n :: rest =>
      match scanDescriptors menv n.id (nodeDescriptors n) with
      | .error e => .error e
      | .ok _ => prepare_nodes menv rest

/-- The dispatch engine after successful construction: the validated plan
nodes and the storage built from the plan's instances. -/
structure Env where
  nodes : List PNode
  storage : MemStore
  deriving DecidableEq, Repr

/-- `Environment.__init__` (wiring-validation part): validate every
operation mapping of every node, then build the storage.  Any mapping
error aborts construction before the storage exists. -/
def mkEnv (menv : ModuleEnv) (nodes : List PNode)
    (node_instances : List NodeInstance) : Except ConfigErr Env :=
  match prepare_nodes menv nodes with
  | .error e => .error e
  | .ok _ => .ok { nodes := nodes, storage := mkMemStore node_instances }

/-- A workflow definition: the implementation's dotted path and the
declared parameters. -/
structure WorkflowDef where
  operation : String
  parameters : List (String × WorkflowParam)
  deriving DecidableEq, Repr

/-- What `Environment.execute` hands to the resolved workflow
implementation: the resolved (module, attribute) pair and the merged
parameters. -/
structure Invocation where
  method : String × String
  merged_parameters : List (String × Val)
  deriving DecidableEq, Repr

/-- `Environment.execute` up to the point the workflow implementation is
invoked: look up the workflow name, resolve its implementation, merge and
validate the parameters; any failure means the implementation is never
invoked. -/
def execute (menv : ModuleEnv) (workflows : List (String × WorkflowDef))
    (workflow : String) (parameters : List (String × Val))
    (allow_custom_parameters : Bool) : Except ExecErr Invocation :=
  match assocGet workflows workflow with
  | none => .error (.unknownWorkflow workflow)
  | some wf =>
      match get_module_method menv wf.operation "workflow" "" with
      | .error e => .error (.config e)
      | .ok m =>
          match merge_and_validate_execution_parameters
              wf.parameters workflow parameters allow_custom_parameters with
          | .error e => .error e
          | .ok merged => .ok { method := m, merged_parameters := merged }

/-! ## Dispatch engine: outputs resolution -/

/-- A plan output value after the external expression evaluator's
`parse`: either a recognized get-attribute function expression (with its
node name and attribute name) or a plain literal. -/
inductive OutExpr where
  | lit (v : Val)
  | getAttribute (node_name : String) (attribute_name : String)
  deriving DecidableEq, Repr

/-- A resolved output value: literals pass through; a get-attribute
expression is replaced by the list of attribute values collected from the
matching instances (`none` where the runtime property is unset). -/
inductive OutRes where
  | lit (v : Val)
  | attrs (vs : List (Option Val))
  deriving DecidableEq, Repr

/-- The handler inside `Environment.outputs` for one get-attribute
expression: over all current node instances, keep those whose `node_id`
equals the function's node name and collect each one's value for the
attribute from `runtime_properties or {}`. -/
def collectAttributes (instances : List NodeInstance) (node_name : String)
    (attribute_name : String) : List (Option Val) :=
  (instances.filter (fun i => i.node_id = node_name)).map
    (fun i => assocGet (i.runtime_properties.getD []) attribute_name)

/-- `Environment.outputs`: deep-copy the plan's outputs and scan every
value, replacing each get-attribute expression by its collected attribute
list and leaving every other value unchanged.  `instances` is the result
of `storage.get_node_instances()`, fetched once for the whole scan. -/
def outputsResolve (instances : List NodeInstance)
    (outs : List (String × OutExpr)) : List (String × OutRes) :=
  outs.map (fun p =>
    match p.2 with
    | .lit v => (p.1, .lit v)
    | .getAttribute node_name attribute_name =>
        (p.1, .attrs (collectAttributes instances node_name attribute_name)))

/-! ## Association-list lemmas -/

theorem assocGet_assocSet {α : Type} (m : List (String × α)) (k id : String)
    (v : α) :
    assocGet (assocSet m k v) id = if k = id then some v else assocGet m id := by
  induction m with
  | nil => simp [assocGet, assocSet]
  | cons hd tl ih =>
      obtain ⟨k', v'⟩ := hd
      by_cases hk : k' = k
      · subst hk
        by_cases hid : k' = id <;> simp [assocSet, assocGet, hid]
      · by_cases hid : k' = id
        · subst hid
          have hne : ¬k = k' := fun h => hk h.symm
          simp [assocSet, hk, assocGet, hne]
        · simp [assocSet, hk, assocGet, hid, ih]

theorem mem_assocKeys_iff {α : Type} (m : List (String × α)) (k : String) :
    k ∈ assocKeys m ↔ ∃ v, assocGet m k = some v := by
  induction m with
  | nil => simp [assocKeys, assocGet]
  | cons hd tl ih =>
      obtain ⟨k', v'⟩ := hd
      by_cases hk : k' = k
      · subst hk
        simp [assocKeys, assocGet]
      · have hk' : ¬k = k' := fun h => hk h.symm
        simp [assocKeys, assocGet, hk, hk', List.mem_cons, ih]

theorem assocGet_eq_none_iff {α : Type} (m : List (String × α)) (k : String) :
    assocGet m k = none ↔ k ∉ assocKeys m := by
  rw [mem_assocKeys_iff]
  cases h : assocGet m k with
  | none => simp
  | some v => simp [h]

theorem assocKeys_assocSet_of_mem {α : Type} (m : List (String × α))
    (k : String) (v : α) (h : k ∈ assocKeys m) :
    assocKeys (assocSet m k v) = assocKeys m := by
  induction m with
  | nil => simp [assocKeys] at h
  | cons hd tl ih =>
      obtain ⟨k', v'⟩ := hd
      by_cases hk : k' = k
      · subst hk
        simp [assocSet, assocKeys]
      · have h' : k ∈ assocKeys tl := by
          simp only [assocKeys, List.mem_cons] at h
          rcases h with h | h
          · exact absurd h.symm hk
          · exact h
        simp [assocSet, hk, assocKeys, ih h']

theorem assocGet_append_of_none {α : Type} (a b : List (String × α))
    (k : String) (h : assocGet a k = none) :
    assocGet (a ++ b) k = assocGet b k := by
  induction a with
  | nil => simp
  | cons hd tl ih =>
      obtain ⟨k', v'⟩ := hd
      simp only [assocGet] at h
      by_cases hk : k' = k
      · simp [hk] at h
      · simpa [assocGet, hk] using ih (by simpa [hk] using h)

theorem assocGet_of_mem_nodup {α : Type} (m : List (String × α))
    (k : String) (v : α) (hnd : (assocKeys m).Nodup) (hm : (k, v) ∈ m) :
    assocGet m k = some v := by
  induction m with
  | nil => simp at hm
  | cons hd tl ih =>
      obtain ⟨k', v'⟩ := hd
      simp only [assocKeys, List.nodup_cons] at hnd
      rcases List.mem_cons.mp hm with h | h
      · injection h with h1 h2
        subst h1
        subst h2
        simp [assocGet]
      · have hk : ¬k' = k := by
          intro hkk
          subst hkk
          exact hnd.1 ((mem_assocKeys_iff tl k').mpr ⟨v, ih hnd.2 h⟩)
        simp [assocGet, hk, ih hnd.2 h]

/-! ## Storage invariants and run lemmas -/

/-- Whether an observation is a raised exception. -/
def Obs.isErr : Obs → Bool
  | .err _ => true
  | _ => false

/-- Number of `update_node_instance` calls targeting `id` in an operation
sequence. -/
def updCount (id : String) : List StoreOp → Nat
  | [] => 0
  | .upd id' _ _ _ :: rest => (if id' = id then 1 else 0) + updCount id rest
  | .getInst _ :: rest => updCount id rest
  | .getAllInsts :: rest => updCount id rest

/-- The store's entries are keyed by their instance's own id (true of
every store the code can build, since both `Storage.__init__` and
`_store_instance` key by `instance.id`). -/
def StoreWF (s : MemStore) : Prop :=
  ∀ id inst, assocGet s.node_instances id = some inst → inst.id = id

theorem appliedUpdate_id (inst : NodeInstance)
    (rp : Option (List (String × Val))) (st : Option String) :
    (appliedUpdate inst rp st).id = inst.id := by
  cases rp <;> cases st <;> simp [appliedUpdate]

theorem appliedUpdate_version (inst : NodeInstance)
    (rp : Option (List (String × Val))) (st : Option String) :
    (appliedUpdate inst rp st).version = inst.version + 1 := by
  cases rp <;> cases st <;> simp [appliedUpdate]

/-- Every entry of a freshly built instance dict is keyed by its own id
and has version 0 (`Storage.__init__`). -/
theorem initInstances_spec (node_instances : List NodeInstance) :
    ∀ id inst, assocGet (initInstances node_instances) id = some inst →
      inst.id = id ∧ inst.version = 0 := by
  suffices h : ∀ (l : List NodeInstance) (acc : List (String × NodeInstance)),
      (∀ id inst, assocGet acc id = some inst →
        inst.id = id ∧ inst.version = 0) →
      ∀ id inst,
        assocGet (l.foldl
          (fun m i => assocSet m i.id { i with version := 0 }) acc) id
            = some inst →
        inst.id = id ∧ inst.version = 0 by
    intro id inst hget
    exact h node_instances [] (by intro id' inst' h'; simp [assocGet] at h')
      id inst hget
  intro l
  induction l with
  | nil => intro acc hacc; simpa using hacc
  | cons hd tl ih =>
      intro acc hacc id inst hget
      refine ih _ ?_ id inst (by simpa using hget)
      intro id' inst' h'
      rw [assocGet_assocSet] at h'
      by_cases hk : hd.id = id'
      · rw [if_pos hk] at h'
        injection h' with h''
        subst h''
        exact ⟨hk, rfl⟩
      · rw [if_neg hk] at h'
        exact hacc id' inst' h'

/-- Inversion of a successful in-memory update: the instance existed, and
the new store holds exactly the mutated instance under its id. -/
theorem mem_update_ok_inv (s : MemStore) (id : String) (ver : Nat)
    (rp : Option (List (String × Val))) (st : Option String) (s₁ : MemStore)
    (h : s.update_node_instance id ver rp st = .ok s₁) :
    ∃ inst, assocGet s.node_instances id = some inst
      ∧ s₁ = memStoreInstance s (appliedUpdate inst rp st) := by
  unfold MemStore.update_node_instance updateNodeInstanceWith
    getNodeInstanceWith memLoadInstance at h
  by_cases hlk : id ∈ assocKeys s.node_instances
  · rw [show lockOf (assocKeys s.node_instances) id = .ok () from by
      simp [lockOf, hlk]] at h
    simp only [] at h
    cases hg : assocGet s.node_instances id with
    | none => rw [hg] at h; simp at h
    | some inst =>
        rw [hg] at h
        simp only [] at h
        by_cases hc : st = none ∧ ver ≠ inst.version
        · rw [if_pos hc] at h
          simp at h
        · rw [if_neg hc] at h
          refine ⟨inst, rfl, ?_⟩
          injection h with h'
          exact h'.symm
  · rw [show lockOf (assocKeys s.node_instances) id
        = .error (.keyError id) from by simp [lockOf, hlk]] at h
    simp at h

/-- A read step never changes the in-memory store. -/
theorem memStep_get_store (s : MemStore) (id : String) :
    (memStep s (.getInst id)).2 = s := by
  simp only [memStep]
  cases h : s.get_node_instance id <;> simp [h]

theorem memStep_getAll_store (s : MemStore) :
    (memStep s .getAllInsts).2 = s := by
  simp [memStep]

/-- Store well-formedness is preserved by every step. -/
theorem memStep_wf (s : MemStore) (op : StoreOp) (hwf : StoreWF s) :
    StoreWF (memStep s op).2 := by
  cases op with
  | getInst id => rw [memStep_get_store]; exact hwf
  | getAllInsts => rw [memStep_getAll_store]; exact hwf
  | upd id ver rp st =>
      simp only [memStep]
      cases h : s.update_node_instance id ver rp st with
      | error e => exact hwf
      | ok s₁ =>
          obtain ⟨inst, hget, rfl⟩ := mem_update_ok_inv s id ver rp st s₁ h
          intro id' inst' h'
          simp only [memStoreInstance] at h'
          rw [assocGet_assocSet] at h'
          by_cases hk : (appliedUpdate inst rp st).id = id'
          · rw [if_pos hk] at h'
            injection h' with h''
            subst h''
            exact hk
          · rw [if_neg hk] at h'
            exact hwf id' inst' h'

/-- After an error-free run, each instance's version has grown by exactly
the number of updates that targeted it. -/
theorem memRun_version (ops : List StoreOp) (s : MemStore) (obs : List Obs)
    (s' : MemStore) (hwf : StoreWF s) (hrun : memRun s ops = (obs, s'))
    (hok : ∀ o ∈ obs, o.isErr = false) :
    ∀ id inst', assocGet s'.node_instances id = some inst' →
      ∃ inst, assocGet s.node_instances id = some inst
        ∧ inst'.version = inst.version + updCount id ops := by
  induction ops generalizing s obs with
  | nil =>
      simp only [memRun] at hrun
      injection hrun with h1 h2
      subst h2
      intro id inst' h'
      exact ⟨inst', h', by simp [updCount]⟩
  | cons op rest ih =>
      simp only [memRun] at hrun
      cases hstep : memStep s op with
      | mk o s₁ =>
          rw [hstep] at hrun
          simp only [] at hrun
          cases hrest : memRun s₁ rest with
          | mk os s₂ =>
              rw [hrest] at hrun
              injection hrun with h1 h2
              subst h1
              subst h2
              have hok₁ : o.isErr = false := hok o (List.mem_cons_self o os)
              have hokrest : ∀ x ∈ os, x.isErr = false :=
                fun x hx => hok x (List.mem_cons_of_mem o hx)
              have hwf₁ : StoreWF s₁ := by
                have := memStep_wf s op hwf
                rw [hstep] at this
                exact this
              intro id inst' h'
              obtain ⟨instm, hgetm, hverm⟩ :=
                ih s₁ os hwf₁ hrest hokrest id inst' h'
              cases op with
              | getInst gid =>
                  have hs₁ : s₁ = s := by
                    have := memStep_get_store s gid
                    rw [hstep] at this
                    exact this
                  subst hs₁
                  exact ⟨instm, hgetm, by simpa [updCount] using hverm⟩
              | getAllInsts =>
                  have hs₁ : s₁ = s := by
                    have := memStep_getAll_store s
                    rw [hstep] at this
                    exact this
                  subst hs₁
                  exact ⟨instm, hgetm, by simpa [updCount] using hverm⟩
              | upd uid ver rp st =>
                  simp only [memStep] at hstep
                  cases hupd : s.update_node_instance uid ver rp st with
                  | error e =>
                      rw [hupd] at hstep
                      simp only [] at hstep
                      injection hstep with ho hs
                      subst ho
                      simp [Obs.isErr] at hok₁
                  | ok su =>
                      rw [hupd] at hstep
                      simp only [] at hstep
                      injection hstep with ho hs
                      subst hs
                      obtain ⟨inst₀, hget₀, rfl⟩ :=
                        mem_update_ok_inv s uid ver rp st su hupd
                      have hid₀ : inst₀.id = uid := hwf uid inst₀ hget₀
                      simp only [memStoreInstance] at hgetm
                      rw [assocGet_assocSet, appliedUpdate_id, hid₀] at hgetm
                      by_cases hk : uid = id
                      · rw [if_pos hk] at hgetm
                        injection hgetm with h''
                        subst h''
                        refine ⟨inst₀, hk ▸ hget₀, ?_⟩
                        rw [hverm, appliedUpdate_version]
                        simp [updCount, hk]
                        omega
                      · rw [if_neg hk] at hgetm
                        exact ⟨instm, hgetm, by
                          rw [hverm]
                          simp [updCount, hk]⟩

/-- Inversion of a successful generic update: the lock existed, the
instance loaded fine, and the stored result is exactly the mutated
instance. -/
theorem update_with_ok_inv {σ : Type}
    (load : σ → String → Except StorageErr (Option NodeInstance))
    (store : σ → NodeInstance → σ) (lock_keys : List String) (s : σ)
    (id : String) (ver : Nat)
    (rp : Option (List (String × Val))) (st : Option String) (s₁ : σ)
    (h : updateNodeInstanceWith load store lock_keys s id ver rp st
      = .ok s₁) :
    ∃ inst, getNodeInstanceWith load s id = .ok inst
      ∧ s₁ = store s (appliedUpdate inst rp st) := by
  unfold updateNodeInstanceWith at h
  by_cases hlk : id ∈ lock_keys
  · rw [show lockOf lock_keys id = .ok () from by simp [lockOf, hlk]] at h
    simp only [] at h
    cases hg : getNodeInstanceWith load s id with
    | error e => rw [hg] at h; simp at h
    | ok inst =>
        rw [hg] at h
        simp only [] at h
        by_cases hc : st = none ∧ ver ≠ inst.version
        · rw [if_pos hc] at h
          simp at h
        · rw [if_neg hc] at h
          refine ⟨inst, rfl, ?_⟩
          injection h with h'
          exact h'.symm
  · rw [show lockOf lock_keys id = .error (.keyError id) from by
      simp [lockOf, hlk]] at h
    simp at h

/-- `Storage._get_node_instance` on the file backend succeeds exactly on
the ids that have a file. -/
theorem file_get_inv (fs : FileStore) (id : String) (inst : NodeInstance) :
    getNodeInstanceWith fileLoadInstance fs id = .ok inst ↔
      assocGet fs.files id = some inst := by
  unfold getNodeInstanceWith fileLoadInstance
  cases h : assocGet fs.files id with
  | none =>
      have hlk : id ∉ assocKeys fs.files := (assocGet_eq_none_iff _ _).mp h
      simp [lockOf, hlk, h]
  | some v =>
      have hlk : id ∈ assocKeys fs.files :=
        (mem_assocKeys_iff _ _).mpr ⟨v, h⟩
      simp [lockOf, hlk, h]

/-- `Storage._get_node_instance` on the memory backend succeeds exactly
on the ids present in the dict. -/
theorem mem_get_inv (s : MemStore) (id : String) (inst : NodeInstance) :
    getNodeInstanceWith memLoadInstance s id = .ok inst ↔
      assocGet s.node_instances id = some inst := by
  unfold getNodeInstanceWith memLoadInstance
  cases h : assocGet s.node_instances id <;> simp [h]

/-- File-backend analogue of `StoreWF`. -/
def FileStoreWF (fs : FileStore) : Prop :=
  ∀ id inst, assocGet fs.files id = some inst → inst.id = id

/-! ## Backend equivalence -/

/-- An operation targets only instance ids present in the given key
set (`getAllInsts` targets no particular id). -/
def opKnown (keys : List String) : StoreOp → Prop
  | .getInst id => id ∈ keys
  | .getAllInsts => True
  | .upd id _ _ _ => id ∈ keys

instance (keys : List String) (op : StoreOp) : Decidable (opKnown keys op) := by
  cases op <;> simp only [opKnown] <;> infer_instance

theorem opKnown_mono (keys keys' : List String) (op : StoreOp)
    (hsub : ∀ x ∈ keys, x ∈ keys') (h : opKnown keys op) :
    opKnown keys' op := by
  cases op <;> simp only [opKnown] at h ⊢
  · exact hsub _ h
  · exact hsub _ h

theorem assocKeys_assocSet_superset {α : Type} (m : List (String × α))
    (k : String) (v : α) :
    ∀ x ∈ assocKeys m, x ∈ assocKeys (assocSet m k v) := by
  induction m with
  | nil => intro x hx; simp [assocKeys] at hx
  | cons hd tl ih =>
      obtain ⟨k', v'⟩ := hd
      intro x hx
      by_cases hk : k' = k
      · subst hk
        simpa [assocSet, assocKeys] using hx
      · simp only [assocKeys, List.mem_cons] at hx
        rcases hx with hx | hx
        · simp [assocSet, hk, assocKeys, hx]
        · simp [assocSet, hk, assocKeys]
          exact Or.inr (ih x hx)

/-- A memory step never removes keys from the store. -/
theorem memStep_keys_superset (s : MemStore) (op : StoreOp) :
    ∀ x ∈ assocKeys s.node_instances,
      x ∈ assocKeys (memStep s op).2.node_instances := by
  cases op with
  | getInst id => rw [memStep_get_store]; exact fun x hx => hx
  | getAllInsts => rw [memStep_getAll_store]; exact fun x hx => hx
  | upd id ver rp st =>
      simp only [memStep]
      cases h : s.update_node_instance id ver rp st with
      | error e => exact fun x hx => hx
      | ok s₁ =>
          obtain ⟨inst, hget, rfl⟩ := mem_update_ok_inv s id ver rp st s₁ h
          exact assocKeys_assocSet_superset _ _ _

/-- One step produces the same observation and corresponding stores on
the two backends, provided the targeted id exists. -/
theorem fileStep_memStep_eq (s : MemStore) (fs : FileStore) (op : StoreOp)
    (hfs : fs.files = s.node_instances)
    (hk : opKnown (assocKeys s.node_instances) op) :
    (fileStep fs op).1 = (memStep s op).1
      ∧ (fileStep fs op).2.files = (memStep s op).2.node_instances := by
  cases op with
  | getInst id =>
      simp only [opKnown] at hk
      obtain ⟨inst, hget⟩ := (mem_assocKeys_iff _ id).mp hk
      simp [fileStep, memStep, FileStore.get_node_instance,
        MemStore.get_node_instance, getNodeInstanceWith, fileLoadInstance,
        memLoadInstance, lockOf, hfs, hk, hget]
  | getAllInsts =>
      simp [fileStep, memStep, FileStore.get_node_instances,
        MemStore.get_node_instances, hfs]
  | upd id ver rp st =>
      simp only [opKnown] at hk
      obtain ⟨inst, hget⟩ := (mem_assocKeys_iff _ id).mp hk
      by_cases hc : st = none ∧ ver ≠ inst.version
      · simp [fileStep, memStep, FileStore.update_node_instance,
          MemStore.update_node_instance, updateNodeInstanceWith,
          getNodeInstanceWith, fileLoadInstance, memLoadInstance, lockOf,
          hfs, hk, hget, hc]
      · simp [fileStep, memStep, FileStore.update_node_instance,
          MemStore.update_node_instance, updateNodeInstanceWith,
          getNodeInstanceWith, fileLoadInstance, memLoadInstance, lockOf,
          hfs, hk, hget, hc, fileStoreInstance, memStoreInstance]

theorem memRun_cons (s : MemStore) (op : StoreOp) (rest : List StoreOp) :
    memRun s (op :: rest)
      = ((memStep s op).1 :: (memRun (memStep s op).2 rest).1,
         (memRun (memStep s op).2 rest).2) := rfl

theorem fileRun_cons (fs : FileStore) (op : StoreOp) (rest : List StoreOp) :
    fileRun fs (op :: rest)
      = ((fileStep fs op).1 :: (fileRun (fileStep fs op).2 rest).1,
         (fileRun (fileStep fs op).2 rest).2) := rfl

/-- Whole-run equivalence of the two backends over corresponding stores,
for sequences whose operations all target existing ids. -/
theorem fileRun_memRun_eq (ops : List StoreOp) (s : MemStore)
    (fs : FileStore) (hfs : fs.files = s.node_instances)
    (hknown : ∀ op ∈ ops, opKnown (assocKeys s.node_instances) op) :
    (fileRun fs ops).1 = (memRun s ops).1
      ∧ (fileRun fs ops).2.files = (memRun s ops).2.node_instances := by
  induction ops generalizing s fs with
  | nil => exact ⟨rfl, hfs⟩
  | cons op rest ih =>
      have hk := hknown op (List.mem_cons_self op rest)
      have hstep := fileStep_memStep_eq s fs op hfs hk
      have hknown' : ∀ op' ∈ rest,
          opKnown (assocKeys (memStep s op).2.node_instances) op' :=
        fun op' hop' =>
          opKnown_mono _ _ op' (memStep_keys_superset s op)
            (hknown op' (List.mem_cons_of_mem op hop'))
      have hrest := ih (memStep s op).2 (fileStep fs op).2 hstep.2 hknown'
      rw [memRun_cons, fileRun_cons]
      exact ⟨by rw [hstep.1, hrest.1], hrest.2⟩

/-! ## Parameter-merge lemmas -/

theorem mem_missingOf_iff (wparams : List (String × WorkflowParam))
    (exec : List (String × Val)) (n : String) :
    n ∈ missingOf wparams exec ↔
      ∃ p, (n, p) ∈ wparams ∧ p.default = none ∧ assocGet exec n = none := by
  unfold missingOf
  simp only [List.mem_map, List.mem_filter, decide_eq_true_eq]
  constructor
  · rintro ⟨⟨n', p⟩, ⟨hmem, hd, hg⟩, rfl⟩
    exact ⟨p, hmem, hd, hg⟩
  · rintro ⟨p, hmem, hd, hg⟩
    exact ⟨(n, p), ⟨hmem, hd, hg⟩, rfl⟩

theorem missingOf_eq_nil (wparams : List (String × WorkflowParam))
    (exec : List (String × Val))
    (h : ∀ n p, (n, p) ∈ wparams → p.default = none →
      assocGet exec n ≠ none) :
    missingOf wparams exec = [] := by
  unfold missingOf
  rw [List.map_eq_nil_iff, List.filter_eq_nil_iff]
  rintro ⟨n, p⟩ hmem
  simp only [decide_eq_true_eq, not_and]
  exact fun hd => h n p hmem hd

theorem mem_customOf_names_iff (wparams : List (String × WorkflowParam))
    (exec : List (String × Val)) (k : String) :
    k ∈ (customOf wparams exec).map (fun p => p.1) ↔
      ∃ v, (k, v) ∈ exec ∧ assocGet wparams k = none := by
  unfold customOf
  simp only [List.mem_map, List.mem_filter, decide_eq_true_eq]
  constructor
  · rintro ⟨⟨k', v⟩, ⟨hmem, hg⟩, rfl⟩
    exact ⟨v, hmem, hg⟩
  · rintro ⟨v, hmem, hg⟩
    exact ⟨(k, v), ⟨hmem, hg⟩, rfl⟩

/-- Under key uniqueness and no missing mandatory parameter, a declared
parameter's merged value is the caller's value when supplied, else the
declared default. -/
theorem assocGet_mergedOf (wparams : List (String × WorkflowParam))
    (exec : List (String × Val)) (n : String) (p : WorkflowParam)
    (hnd : (assocKeys wparams).Nodup) (hmem : (n, p) ∈ wparams)
    (hnomiss : p.default = none → assocGet exec n ≠ none) :
    assocGet (mergedOf wparams exec) n
      = match assocGet exec n with
        | some v => some v
        | none => p.default := by
  induction wparams with
  | nil => simp at hmem
  | cons hd tl ih =>
      obtain ⟨n₀, p₀⟩ := hd
      simp only [assocKeys, List.nodup_cons] at hnd
      by_cases hn : n₀ = n
      · subst hn
        have hp : p = p₀ := by
          rcases List.mem_cons.mp hmem with h | h
          · exact congrArg Prod.snd h
          · exact absurd ((mem_assocKeys_iff tl n₀).mpr
              ⟨p, assocGet_of_mem_nodup tl n₀ p hnd.2 h⟩) hnd.1
        subst hp
        unfold mergedOf
        cases hg : assocGet exec n₀ with
        | some v => simp [List.filterMap_cons, hg, assocGet]
        | none =>
            cases hd : p.default with
            | some d => simp [List.filterMap_cons, hg, hd, assocGet]
            | none => exact absurd hg (hnomiss hd)
      · have hmem' : (n, p) ∈ tl := by
          rcases List.mem_cons.mp hmem with h | h
          · injection h with h1 h2
            exact absurd h1.symm hn
          · exact h
        have ihr := ih hnd.2 hmem'
        unfold mergedOf
        cases hg : assocGet exec n₀ with
        | some v =>
            simpa [List.filterMap_cons, hg, assocGet, hn] using ihr
        | none =>
            cases hd : p₀.default with
            | some d =>
                simpa [List.filterMap_cons, hg, hd, assocGet, hn] using ihr
            | none => simpa [List.filterMap_cons, hg, hd] using ihr

/-- The merged list only mentions declared parameter names. -/
theorem mergedOf_keys_sub (wparams : List (String × WorkflowParam))
    (exec : List (String × Val)) :
    ∀ x ∈ assocKeys (mergedOf wparams exec), x ∈ assocKeys wparams := by
  induction wparams with
  | nil => intro x hx; simp [mergedOf, assocKeys] at hx
  | cons hd tl ih =>
      obtain ⟨n₀, p₀⟩ := hd
      intro x hx
      unfold mergedOf at hx
      cases hg : assocGet exec n₀ with
      | some v =>
          rw [List.filterMap_cons] at hx
          simp only [hg] at hx
          simp only [assocKeys, List.mem_cons] at hx ⊢
          rcases hx with hx | hx
          · exact Or.inl hx
          · exact Or.inr (ih x hx)
      | none =>
          cases hd : p₀.default with
          | some d =>
              rw [List.filterMap_cons] at hx
              simp only [hg, hd] at hx
              simp only [assocKeys, List.mem_cons] at hx ⊢
              rcases hx with hx | hx
              · exact Or.inl hx
              · exact Or.inr (ih x hx)
          | none =>
              rw [List.filterMap_cons] at hx
              simp only [hg, hd] at hx
              simp only [assocKeys, List.mem_cons]
              exact Or.inr (ih x hx)

/-- Looking up a filtered association list under key uniqueness. -/
theorem assocGet_filter_of_mem {α : Type} (m : List (String × α))
    (pred : String × α → Bool) (k : String) (v : α)
    (hnd : (assocKeys m).Nodup) (hm : (k, v) ∈ m)
    (hp : pred (k, v) = true) :
    assocGet (m.filter pred) k = some v := by
  induction m with
  | nil => simp at hm
  | cons hd tl ih =>
      obtain ⟨k₀, v₀⟩ := hd
      simp only [assocKeys, List.nodup_cons] at hnd
      rcases List.mem_cons.mp hm with h | h
      · injection h with h1 h2
        subst h1
        subst h2
        rw [List.filter_cons, if_pos (by simpa using hp)]
        simp [assocGet]
      · have hk : ¬k₀ = k := by
          intro hkk
          subst hkk
          exact hnd.1 ((mem_assocKeys_iff tl k₀).mpr
            ⟨v, assocGet_of_mem_nodup tl k₀ v hnd.2 h⟩)
        rw [List.filter_cons]
        by_cases hpc : pred (k₀, v₀) = true
        · rw [if_pos (by simpa using hpc)]
          simp only [assocGet, if_neg hk]
          exact ih hnd.2 h
        · rw [if_neg (by simpa using hpc)]
          exact ih hnd.2 h

theorem assocGet_append_of_some {α : Type} (a b : List (String × α))
    (k : String) (v : α) (h : assocGet a k = some v) :
    assocGet (a ++ b) k = some v := by
  induction a with
  | nil => simp [assocGet] at h
  | cons hd tl ih =>
      obtain ⟨k', v'⟩ := hd
      simp only [assocGet] at h
      by_cases hk : k' = k
      · simp only [List.cons_append, assocGet, if_pos hk]
        simpa [hk] using h
      · simp only [List.cons_append, assocGet, if_neg hk]
        exact ih (by simpa [hk] using h)

/-! ## Concrete fixtures used by the witness theorems -/

/-- A concrete instance used by witnesses. -/
def instA : NodeInstance :=
  { id := "a", node_id := "web", state := some "uninitialized",
    runtime_properties := none, version := 0 }

/-- A second concrete instance used by witnesses. -/
def instB : NodeInstance :=
  { id := "b", node_id := "web", state := none,
    runtime_properties := some [("ip", .str "1.2.3.4")], version := 0 }

/-- A freshly constructed in-memory store over `instA` and `instB`. -/
def memAB : MemStore := mkMemStore [instA, instB]

/-- A freshly constructed file store over `instA` and `instB`. -/
def fileAB : FileStore := mkFileStore [instA, instB]

/-! ## Claim theorems -/

/-- C1: for every stored node instance, `update_node_instance` without a
`state` and with an `expectedVersion` differing from the stored version
raises `StorageConflictError` on both backends and leaves the stored
instance entirely unchanged — the store after the failed call is exactly
the store before it, so runtime properties, state and version all keep
their prior values. -/
theorem stale_property_update_rejected
    (s : MemStore) (fs : FileStore) (id : String)
    (inst finst : NodeInstance) (ver : Nat)
    (rp : Option (List (String × Val)))
    (hm : assocGet s.node_instances id = some inst)
    (hf : assocGet fs.files id = some finst)
    (hvm : ver ≠ inst.version) (hvf : ver ≠ finst.version) :
    memStep s (.upd id ver rp none)
        = (.err (.conflict ver id inst.version), s)
      ∧ fileStep fs (.upd id ver rp none)
        = (.err (.conflict ver id finst.version), fs) := by
  have hlkm : id ∈ assocKeys s.node_instances :=
    (mem_assocKeys_iff _ _).mpr ⟨inst, hm⟩
  have hlkf : id ∈ assocKeys fs.files :=
    (mem_assocKeys_iff _ _).mpr ⟨finst, hf⟩
  constructor
  · simp [memStep, MemStore.update_node_instance, updateNodeInstanceWith,
      getNodeInstanceWith, memLoadInstance, lockOf, hlkm, hm, hvm]
  · simp [fileStep, FileStore.update_node_instance, updateNodeInstanceWith,
      getNodeInstanceWith, fileLoadInstance, lockOf, hlkf, hf, hvf]

/-- Witness for C1 at a concrete store: expected version 3 against stored
version 0. -/
theorem stale_property_update_rejected_witness :
    assocGet memAB.node_instances "a" = some instA
    ∧ assocGet fileAB.files "a" = some instA
    ∧ (3 : Nat) ≠ instA.version
    ∧ (memStep memAB (.upd "a" 3 none none)
        = (.err (.conflict 3 "a" instA.version), memAB)
      ∧ fileStep fileAB (.upd "a" 3 none none)
        = (.err (.conflict 3 "a" instA.version), fileAB)) :=
  ⟨by decide, by decide, by decide,
    stale_property_update_rejected memAB fileAB "a" instA instA 3 none
      (by decide) (by decide) (by decide) (by decide)⟩

/-- C2: for every stored node instance and every expected version, an
update that provides a `state` is accepted on both backends: it never
raises `StorageConflictError`, increments the stored version by exactly 1,
applies the given state, and applies the runtime properties when also
given — regardless of whether the expected version matches. -/
theorem state_transition_always_accepted
    (s : MemStore) (fs : FileStore) (id : String)
    (inst finst : NodeInstance) (ver : Nat)
    (rp : Option (List (String × Val))) (st : String)
    (hm : assocGet s.node_instances id = some inst)
    (hf : assocGet fs.files id = some finst) :
    s.update_node_instance id ver rp (some st)
        = .ok (memStoreInstance s (appliedUpdate inst rp (some st)))
      ∧ fs.update_node_instance id ver rp (some st)
        = .ok (fileStoreInstance fs (appliedUpdate finst rp (some st)))
      ∧ (appliedUpdate inst rp (some st)).version = inst.version + 1
      ∧ (appliedUpdate inst rp (some st)).state = some st
      ∧ (∀ r, rp = some r →
          (appliedUpdate inst rp (some st)).runtime_properties = some r)
      ∧ (rp = none →
          (appliedUpdate inst rp (some st)).runtime_properties
            = inst.runtime_properties) := by
  have hlkm : id ∈ assocKeys s.node_instances :=
    (mem_assocKeys_iff _ _).mpr ⟨inst, hm⟩
  have hlkf : id ∈ assocKeys fs.files :=
    (mem_assocKeys_iff _ _).mpr ⟨finst, hf⟩
  refine ⟨?_, ?_, ?_, ?_, ?_, ?_⟩
  · simp [MemStore.update_node_instance, updateNodeInstanceWith,
      getNodeInstanceWith, memLoadInstance, lockOf, hlkm, hm]
  · simp [FileStore.update_node_instance, updateNodeInstanceWith,
      getNodeInstanceWith, fileLoadInstance, lockOf, hlkf, hf]
  · cases rp <;> simp [appliedUpdate]
  · cases rp <;> simp [appliedUpdate]
  · intro r hr
    subst hr
    simp [appliedUpdate]
  · intro hr
    subst hr
    simp [appliedUpdate]

/-- Witness for C2 at a concrete store: a state transition submitted with
a mismatching expected version (7 against stored 0) is accepted on both
backends. -/
theorem state_transition_always_accepted_witness :
    assocGet memAB.node_instances "a" = some instA
    ∧ assocGet fileAB.files "a" = some instA
    ∧ (memAB.update_node_instance "a" 7 (some [("x", .num 1)])
          (some "started")
        = .ok (memStoreInstance memAB
            (appliedUpdate instA (some [("x", .num 1)]) (some "started")))
      ∧ fileAB.update_node_instance "a" 7 (some [("x", .num 1)])
          (some "started")
        = .ok (fileStoreInstance fileAB
            (appliedUpdate instA (some [("x", .num 1)]) (some "started")))
      ∧ (appliedUpdate instA (some [("x", .num 1)]) (some "started")).version
          = instA.version + 1
      ∧ (appliedUpdate instA (some [("x", .num 1)])
          (some "started")).state = some "started"
      ∧ (∀ r, some [("x", Val.num 1)] = some r →
          (appliedUpdate instA (some [("x", .num 1)])
            (some "started")).runtime_properties = some r)
      ∧ (some [("x", Val.num 1)] = none →
          (appliedUpdate instA (some [("x", .num 1)])
            (some "started")).runtime_properties
              = instA.runtime_properties)) :=
  ⟨by decide, by decide,
    state_transition_always_accepted memAB fileAB "a" instA instA 7
      (some [("x", .num 1)]) "started" (by decide) (by decide)⟩

/-- Update sequence used by the C3 witness: two state transitions and
one property update on `a` plus one property update on `b`. -/
def opsC3 : List StoreOp :=
  [.upd "a" 0 none (some "started"),
   .upd "a" 5 none (some "configured"),
   .upd "b" 0 (some [("k", .num 2)]) none]

/-- C3: in a freshly constructed store every instance's version is 0, and
after any error-free sequence of operations each instance's version
equals exactly the number of `update_node_instance` calls that targeted
it — one increment per successful update, no skips, no decreases,
whatever the mix of state transitions and property updates. -/
theorem fresh_store_version_counts_updates
    (node_instances : List NodeInstance) (ops : List StoreOp)
    (obs : List Obs) (s' : MemStore)
    (hrun : memRun (mkMemStore node_instances) ops = (obs, s'))
    (hok : ∀ o ∈ obs, o.isErr = false) :
    (∀ id inst,
        assocGet (mkMemStore node_instances).node_instances id = some inst →
        inst.version = 0)
      ∧ (∀ id inst', assocGet s'.node_instances id = some inst' →
          inst'.version = updCount id ops) := by
  have hwf : StoreWF (mkMemStore node_instances) := fun id inst h =>
    (initInstances_spec node_instances id inst h).1
  constructor
  · intro id inst h
    exact (initInstances_spec node_instances id inst h).2
  · intro id inst' h'
    obtain ⟨inst, hget, hver⟩ :=
      memRun_version ops (mkMemStore node_instances) obs s' hwf hrun hok
        id inst' h'
    rw [hver, (initInstances_spec node_instances id inst hget).2]
    omega

/-- Witness for C3: three successful updates, two of them on `a`, leave
`a` at version 2 and `b` at version 1. -/
theorem fresh_store_version_counts_updates_witness :
    memRun memAB opsC3 = ((memRun memAB opsC3).1, (memRun memAB opsC3).2)
    ∧ (∀ o ∈ (memRun memAB opsC3).1, o.isErr = false)
    ∧ ((∀ id inst, assocGet memAB.node_instances id = some inst →
          inst.version = 0)
      ∧ (∀ id inst',
          assocGet (memRun memAB opsC3).2.node_instances id = some inst' →
          inst'.version = updCount id opsC3)) :=
  ⟨rfl, by decide,
    fresh_store_version_counts_updates [instA, instB] opsC3
      (memRun memAB opsC3).1 (memRun memAB opsC3).2 rfl (by decide)⟩

/-- C4 counterexample: from the same initial instance set, the same
single-operation sequence (reading an id that is not in the store) is
observed differently on the two backends — the memory backend raises the
instance-does-not-exist RuntimeError from `_get_node_instance`, while the
file backend raises a KeyError from the per-instance lock-table lookup
that `FileStorage._load_instance` performs before `open`. -/
theorem backends_observably_differ_on_unknown_id :
    (memRun memAB [.getInst "ghost"]).1
      ≠ (fileRun fileAB [.getInst "ghost"]).1 := by
  decide

/-- C4 (amended): for sequences all of whose operations target instance
ids present in the store, the two backends produce identical observation
lists and corresponding final stores; and on either backend a successful
`update_node_instance` followed by `get_node_instance` on the same id
returns exactly the runtime properties and state that were written. -/
theorem backends_equivalent_on_known_ids
    (node_instances : List NodeInstance) (ops : List StoreOp)
    (hknown : ∀ op ∈ ops,
      opKnown (assocKeys (initInstances node_instances)) op) :
    ((fileRun (mkFileStore node_instances) ops).1
        = (memRun (mkMemStore node_instances) ops).1
      ∧ (fileRun (mkFileStore node_instances) ops).2.files
        = (memRun (mkMemStore node_instances) ops).2.node_instances)
      ∧ (∀ (s : MemStore) id ver rp st s₁, StoreWF s →
          s.update_node_instance id ver rp st = .ok s₁ →
          ∃ inst₁, s₁.get_node_instance id = .ok inst₁
            ∧ (∀ r, rp = some r → inst₁.runtime_properties = some r)
            ∧ (∀ x, st = some x → inst₁.state = some x))
      ∧ (∀ (fs : FileStore) id ver rp st fs₁, FileStoreWF fs →
          fs.update_node_instance id ver rp st = .ok fs₁ →
          ∃ inst₁, fs₁.get_node_instance id = .ok inst₁
            ∧ (∀ r, rp = some r → inst₁.runtime_properties = some r)
            ∧ (∀ x, st = some x → inst₁.state = some x)) := by
  refine ⟨fileRun_memRun_eq ops (mkMemStore node_instances)
    (mkFileStore node_instances) rfl hknown, ?_, ?_⟩
  · intro s id ver rp st s₁ hwf hupd
    obtain ⟨inst, hget, rfl⟩ := mem_update_ok_inv s id ver rp st s₁ hupd
    refine ⟨appliedUpdate inst rp st, ?_, ?_, ?_⟩
    · rw [MemStore.get_node_instance, mem_get_inv]
      simp only [memStoreInstance]
      rw [assocGet_assocSet, appliedUpdate_id, hwf id inst hget, if_pos rfl]
    · intro r hr
      subst hr
      cases st <;> simp [appliedUpdate]
    · intro x hx
      subst hx
      cases rp <;> simp [appliedUpdate]
  · intro fs id ver rp st fs₁ hwf hupd
    obtain ⟨inst, hget, rfl⟩ :=
      update_with_ok_inv fileLoadInstance fileStoreInstance
        (assocKeys fs.files) fs id ver rp st fs₁ hupd
    rw [file_get_inv] at hget
    refine ⟨appliedUpdate inst rp st, ?_, ?_, ?_⟩
    · rw [FileStore.get_node_instance, file_get_inv]
      simp only [fileStoreInstance]
      rw [assocGet_assocSet, appliedUpdate_id, hwf id inst hget, if_pos rfl]
    · intro r hr
      subst hr
      cases st <;> simp [appliedUpdate]
    · intro x hx
      subst hx
      cases rp <;> simp [appliedUpdate]

/-- Witness for the amended C4 at a concrete sequence mixing a property
update, a state transition, reads and a full listing. -/
theorem backends_equivalent_on_known_ids_witness :
    (∀ op ∈ [StoreOp.upd "a" 0 (some [("x", Val.num 1)]) none,
        StoreOp.upd "b" 9 none (some "started"), StoreOp.getInst "a",
        StoreOp.getAllInsts],
      opKnown (assocKeys (initInstances [instA, instB])) op)
    ∧ (((fileRun (mkFileStore [instA, instB])
          [StoreOp.upd "a" 0 (some [("x", Val.num 1)]) none,
           StoreOp.upd "b" 9 none (some "started"), StoreOp.getInst "a",
           StoreOp.getAllInsts]).1
        = (memRun (mkMemStore [instA, instB])
          [StoreOp.upd "a" 0 (some [("x", Val.num 1)]) none,
           StoreOp.upd "b" 9 none (some "started"), StoreOp.getInst "a",
           StoreOp.getAllInsts]).1
      ∧ (fileRun (mkFileStore [instA, instB])
          [StoreOp.upd "a" 0 (some [("x", Val.num 1)]) none,
           StoreOp.upd "b" 9 none (some "started"), StoreOp.getInst "a",
           StoreOp.getAllInsts]).2.files
        = (memRun (mkMemStore [instA, instB])
          [StoreOp.upd "a" 0 (some [("x", Val.num 1)]) none,
           StoreOp.upd "b" 9 none (some "started"), StoreOp.getInst "a",
           StoreOp.getAllInsts]).2.node_instances)
      ∧ (∀ (s : MemStore) id ver rp st s₁, StoreWF s →
          s.update_node_instance id ver rp st = .ok s₁ →
          ∃ inst₁, s₁.get_node_instance id = .ok inst₁
            ∧ (∀ r, rp = some r → inst₁.runtime_properties = some r)
            ∧ (∀ x, st = some x → inst₁.state = some x))
      ∧ (∀ (fs : FileStore) id ver rp st fs₁, FileStoreWF fs →
          fs.update_node_instance id ver rp st = .ok fs₁ →
          ∃ inst₁, fs₁.get_node_instance id = .ok inst₁
            ∧ (∀ r, rp = some r → inst₁.runtime_properties = some r)
            ∧ (∀ x, st = some x → inst₁.state = some x))) :=
  ⟨by decide,
    backends_equivalent_on_known_ids [instA, instB]
      [StoreOp.upd "a" 0 (some [("x", Val.num 1)]) none,
       StoreOp.upd "b" 9 none (some "started"), StoreOp.getInst "a",
       StoreOp.getAllInsts] (by decide)⟩

/-- C5 counterexample: reading the unknown id `ghost` on the file
backend fails with the KeyError escaping from the lock-table lookup
(`self._locks[id]` in `Storage._lock`, entered before `open`), which is
not one of the spec's NotFoundError forms — so the claim that both
backends fail with a NotFound error is false at this input. -/
theorem unknown_id_not_found_refuted :
    fileStep fileAB (.getInst "ghost") = (.err (.keyError "ghost"), fileAB)
      ∧ (StorageErr.keyError "ghost").isNotFound = false := by
  decide

/-- C5 (amended): on both backends a call on an id that is not in the
store fails and writes nothing — the step returns the store unchanged.
The memory backend's `get_node_instance` fails with the designed
instance-does-not-exist NotFound error; the memory backend's update and
both file-backend paths fail with the KeyError raised by the
per-instance lock-table lookup that runs before the instance is
loaded. -/
theorem unknown_id_failure_modes
    (s : MemStore) (fs : FileStore) (id : String) (ver : Nat)
    (rp : Option (List (String × Val))) (st : Option String)
    (hm : assocGet s.node_instances id = none)
    (hf : assocGet fs.files id = none) :
    memStep s (.getInst id) = (.err (.instanceNotFound id), s)
      ∧ memStep s (.upd id ver rp st) = (.err (.keyError id), s)
      ∧ fileStep fs (.getInst id) = (.err (.keyError id), fs)
      ∧ fileStep fs (.upd id ver rp st) = (.err (.keyError id), fs)
      ∧ (StorageErr.instanceNotFound id).isNotFound = true
      ∧ (StorageErr.keyError id).isNotFound = false := by
  have hlkm : id ∉ assocKeys s.node_instances :=
    (assocGet_eq_none_iff _ _).mp hm
  have hlkf : id ∉ assocKeys fs.files := (assocGet_eq_none_iff _ _).mp hf
  refine ⟨?_, ?_, ?_, ?_, rfl, rfl⟩
  · simp [memStep, MemStore.get_node_instance, getNodeInstanceWith,
      memLoadInstance, hm]
  · simp [memStep, MemStore.update_node_instance, updateNodeInstanceWith,
      lockOf, hlkm]
  · simp [fileStep, FileStore.get_node_instance, getNodeInstanceWith,
      fileLoadInstance, lockOf, hlkf]
  · simp [fileStep, FileStore.update_node_instance, updateNodeInstanceWith,
      lockOf, hlkf]

/-- Witness for the amended C5 on the unknown id `ghost`. -/
theorem unknown_id_failure_modes_witness :
    assocGet memAB.node_instances "ghost" = none
    ∧ assocGet fileAB.files "ghost" = none
    ∧ (memStep memAB (.getInst "ghost")
          = (.err (.instanceNotFound "ghost"), memAB)
      ∧ memStep memAB (.upd "ghost" 0 none (some "started"))
          = (.err (.keyError "ghost"), memAB)
      ∧ fileStep fileAB (.getInst "ghost")
          = (.err (.keyError "ghost"), fileAB)
      ∧ fileStep fileAB (.upd "ghost" 0 none (some "started"))
          = (.err (.keyError "ghost"), fileAB)
      ∧ (StorageErr.instanceNotFound "ghost").isNotFound = true
      ∧ (StorageErr.keyError "ghost").isNotFound = false) :=
  ⟨by decide, by decide,
    unknown_id_failure_modes memAB fileAB "ghost" 0 none (some "started")
      (by decide) (by decide)⟩

/-- Workflow fixture for witnesses: one mandatory parameter `x`, one
defaulted parameter `y`. -/
def wfDeploy : WorkflowDef :=
  { operation := "wfmod.run",
    parameters := [("x", ⟨none⟩), ("y", ⟨some (.num 2)⟩)] }

/-- Module environment fixture: module `wfmod` with attribute `run`. -/
def menvW : ModuleEnv := ⟨[("wfmod", ["run"])]⟩

/-- Workflow table fixture. -/
def workflowsW : List (String × WorkflowDef) := [("deploy", wfDeploy)]

/-- C6: if at least one declared parameter without a default is absent
from the caller's parameters, `execute` fails with a single
missing-parameters error whose name list contains exactly the missing
mandatory names — all of them, not just the first — and the workflow
implementation is never invoked (the result is an error, not an
`Invocation`). -/
theorem missing_mandatory_parameters_listed
    (menv : ModuleEnv) (workflows : List (String × WorkflowDef))
    (wname : String) (wf : WorkflowDef) (params : List (String × Val))
    (allow : Bool) (m : String × String)
    (hwf : assocGet workflows wname = some wf)
    (hres : get_module_method menv wf.operation "workflow" "" = .ok m)
    (hmiss : ∃ n p, (n, p) ∈ wf.parameters ∧ p.default = none
      ∧ assocGet params n = none) :
    execute menv workflows wname params allow
        = .error (.missingParams wname (missingOf wf.parameters params))
      ∧ (∀ n, n ∈ missingOf wf.parameters params ↔
          ∃ p, (n, p) ∈ wf.parameters ∧ p.default = none
            ∧ assocGet params n = none) := by
  have hne : missingOf wf.parameters params ≠ [] := by
    obtain ⟨n, p, hmem, hd, hg⟩ := hmiss
    intro hnil
    have hn : n ∈ missingOf wf.parameters params :=
      (mem_missingOf_iff _ _ n).mpr ⟨p, hmem, hd, hg⟩
    rw [hnil] at hn
    simp at hn
  refine ⟨?_, fun n => mem_missingOf_iff _ _ n⟩
  simp [execute, hwf, hres, merge_and_validate_execution_parameters, hne]

/-- Witness for C6: `deploy` declares mandatory `x`; calling with no
parameters is rejected listing `x`. -/
theorem missing_mandatory_parameters_listed_witness :
    assocGet workflowsW "deploy" = some wfDeploy
    ∧ get_module_method menvW wfDeploy.operation "workflow" ""
        = .ok ("wfmod", "run")
    ∧ (∃ n p, (n, p) ∈ wfDeploy.parameters ∧ p.default = none
        ∧ assocGet ([] : List (String × Val)) n = none)
    ∧ (execute menvW workflowsW "deploy" [] false
        = .error (.missingParams "deploy" (missingOf wfDeploy.parameters []))
      ∧ (∀ n, n ∈ missingOf wfDeploy.parameters [] ↔
          ∃ p, (n, p) ∈ wfDeploy.parameters ∧ p.default = none
            ∧ assocGet ([] : List (String × Val)) n = none)) :=
  ⟨by decide, by rfl, ⟨"x", ⟨none⟩, by decide, rfl, rfl⟩,
    missing_mandatory_parameters_listed menvW workflowsW "deploy" wfDeploy
      [] false ("wfmod", "run") (by decide) (by rfl)
      ⟨"x", ⟨none⟩, by decide, rfl, rfl⟩⟩

/-- C7: with all mandatory parameters supplied, caller-supplied
parameters not declared by the workflow make `execute` fail listing all
of the undeclared names when custom parameters are not allowed; when they
are allowed, `execute` succeeds, every custom parameter passes through
into the merged parameters unchanged, and every declared parameter maps
to the caller's value when supplied, else to its declared default. -/
theorem custom_parameters_validation
    (menv : ModuleEnv) (workflows : List (String × WorkflowDef))
    (wname : String) (wf : WorkflowDef) (params : List (String × Val))
    (m : String × String)
    (hwf : assocGet workflows wname = some wf)
    (hres : get_module_method menv wf.operation "workflow" "" = .ok m)
    (hndw : (assocKeys wf.parameters).Nodup)
    (hnde : (assocKeys params).Nodup)
    (hmiss : missingOf wf.parameters params = []) :
    ((∃ k v, (k, v) ∈ params ∧ assocGet wf.parameters k = none) →
      execute menv workflows wname params false
          = .error (.customParams wname
              ((customOf wf.parameters params).map (fun p => p.1)))
        ∧ (∀ k, k ∈ (customOf wf.parameters params).map (fun p => p.1) ↔
            ∃ v, (k, v) ∈ params ∧ assocGet wf.parameters k = none))
    ∧ (execute menv workflows wname params true
          = .ok { method := m,
                  merged_parameters := mergedOf wf.parameters params
                    ++ customOf wf.parameters params }
        ∧ (∀ k v, (k, v) ∈ params → assocGet wf.parameters k = none →
            assocGet (mergedOf wf.parameters params
              ++ customOf wf.parameters params) k = some v)
        ∧ (∀ n p, (n, p) ∈ wf.parameters →
            assocGet (mergedOf wf.parameters params
              ++ customOf wf.parameters params) n
              = match assocGet params n with
                | some v => some v
                | none => p.default)) := by
  have hnomiss : ∀ n p, (n, p) ∈ wf.parameters → p.default = none →
      assocGet params n ≠ none := by
    intro n p hmem hd hg
    have hn : n ∈ missingOf wf.parameters params :=
      (mem_missingOf_iff _ _ n).mpr ⟨p, hmem, hd, hg⟩
    rw [hmiss] at hn
    simp at hn
  constructor
  · intro hcust
    have hcne : customOf wf.parameters params ≠ [] := by
      obtain ⟨k, v, hmem, hg⟩ := hcust
      intro hnil
      have hk : (k, v) ∈ customOf wf.parameters params := by
        unfold customOf
        exact List.mem_filter.mpr ⟨hmem, by simp [hg]⟩
      rw [hnil] at hk
      simp at hk
    constructor
    · simp [execute, hwf, hres, merge_and_validate_execution_parameters,
        hmiss, hcne]
    · intro k
      exact mem_customOf_names_iff _ _ k
  · refine ⟨?_, ?_, ?_⟩
    · simp [execute, hwf, hres, merge_and_validate_execution_parameters,
        hmiss]
    · intro k v hmem hg
      have hmerged : assocGet (mergedOf wf.parameters params) k = none := by
        rw [assocGet_eq_none_iff]
        intro hk
        exact (assocGet_eq_none_iff wf.parameters k).mp hg
          (mergedOf_keys_sub wf.parameters params k hk)
      rw [assocGet_append_of_none _ _ _ hmerged]
      unfold customOf
      exact assocGet_filter_of_mem params _ k v hnde hmem (by simp [hg])
    · intro n p hmem
      cases hg : assocGet params n with
      | some v =>
          have := assocGet_mergedOf wf.parameters params n p hndw hmem
            (fun _ => by simp [hg])
          rw [hg] at this
          simpa using assocGet_append_of_some _
            (customOf wf.parameters params) n v this
      | none =>
          cases hd : p.default with
          | some d =>
              have := assocGet_mergedOf wf.parameters params n p hndw hmem
                (fun h => absurd hg (hnomiss n p hmem h))
              rw [hg, hd] at this
              simpa using assocGet_append_of_some _
                (customOf wf.parameters params) n d this
          | none => exact absurd hg (hnomiss n p hmem hd)

/-- Witness for C7: `deploy` called with mandatory `x` supplied and an
undeclared `extra`. -/
theorem custom_parameters_validation_witness :
    assocGet workflowsW "deploy" = some wfDeploy
    ∧ get_module_method menvW wfDeploy.operation "workflow" ""
        = .ok ("wfmod", "run")
    ∧ (assocKeys wfDeploy.parameters).Nodup
    ∧ (assocKeys [("x", Val.num 1), ("extra", Val.num 9)]).Nodup
    ∧ missingOf wfDeploy.parameters [("x", Val.num 1), ("extra", Val.num 9)]
        = []
    ∧ (((∃ k v, (k, v) ∈ [("x", Val.num 1), ("extra", Val.num 9)]
          ∧ assocGet wfDeploy.parameters k = none) →
        execute menvW workflowsW "deploy"
            [("x", Val.num 1), ("extra", Val.num 9)] false
          = .error (.customParams "deploy"
              ((customOf wfDeploy.parameters
                [("x", Val.num 1), ("extra", Val.num 9)]).map (fun p => p.1)))
        ∧ (∀ k, k ∈ (customOf wfDeploy.parameters
              [("x", Val.num 1), ("extra", Val.num 9)]).map (fun p => p.1) ↔
            ∃ v, (k, v) ∈ [("x", Val.num 1), ("extra", Val.num 9)]
              ∧ assocGet wfDeploy.parameters k = none))
      ∧ (execute menvW workflowsW "deploy"
            [("x", Val.num 1), ("extra", Val.num 9)] true
          = .ok { method := ("wfmod", "run"),
                  merged_parameters :=
                    mergedOf wfDeploy.parameters
                      [("x", Val.num 1), ("extra", Val.num 9)]
                    ++ customOf wfDeploy.parameters
                      [("x", Val.num 1), ("extra", Val.num 9)] }
        ∧ (∀ k v, (k, v) ∈ [("x", Val.num 1), ("extra", Val.num 9)] →
            assocGet wfDeploy.parameters k = none →
            assocGet (mergedOf wfDeploy.parameters
                [("x", Val.num 1), ("extra", Val.num 9)]
              ++ customOf wfDeploy.parameters
                [("x", Val.num 1), ("extra", Val.num 9)]) k = some v)
        ∧ (∀ n p, (n, p) ∈ wfDeploy.parameters →
            assocGet (mergedOf wfDeploy.parameters
                [("x", Val.num 1), ("extra", Val.num 9)]
              ++ customOf wfDeploy.parameters
                [("x", Val.num 1), ("extra", Val.num 9)]) n
              = match assocGet [("x", Val.num 1), ("extra", Val.num 9)] n with
                | some v => some v
                | none => p.default))) :=
  ⟨by decide, by rfl, by decide, by decide, by decide,
    custom_parameters_validation menvW workflowsW "deploy" wfDeploy
      [("x", Val.num 1), ("extra", Val.num 9)] ("wfmod", "run")
      (by decide) (by rfl) (by decide) (by decide) (by decide)⟩

/-- C10: when at least one mandatory parameter is missing and at least
one undeclared parameter is supplied with custom parameters disallowed,
the raised error is the missing-mandatory one; the undeclared-parameter
error is never produced on that call. -/
theorem missing_check_precedes_custom_check
    (wparams : List (String × WorkflowParam)) (wname : String)
    (params : List (String × Val))
    (hmiss : ∃ n p, (n, p) ∈ wparams ∧ p.default = none
      ∧ assocGet params n = none)
    (_hcust : ∃ k v, (k, v) ∈ params ∧ assocGet wparams k = none) :
    merge_and_validate_execution_parameters wparams wname params false
        = .error (.missingParams wname (missingOf wparams params))
      ∧ ∀ cs, merge_and_validate_execution_parameters wparams wname params
          false ≠ .error (.customParams wname cs) := by
  have hne : missingOf wparams params ≠ [] := by
    obtain ⟨n, p, hmem, hd, hg⟩ := hmiss
    intro hnil
    have hn : n ∈ missingOf wparams params :=
      (mem_missingOf_iff _ _ n).mpr ⟨p, hmem, hd, hg⟩
    rw [hnil] at hn
    simp at hn
  have heq : merge_and_validate_execution_parameters wparams wname params
      false = .error (.missingParams wname (missingOf wparams params)) := by
    simp [merge_and_validate_execution_parameters, hne]
  refine ⟨heq, fun cs hc => ?_⟩
  rw [heq] at hc
  simp at hc

/-- Witness for C10: mandatory `x` missing and undeclared `extra`
supplied; the missing-parameter error wins. -/
theorem missing_check_precedes_custom_check_witness :
    (∃ n p, (n, p) ∈ wfDeploy.parameters ∧ p.default = none
      ∧ assocGet [("extra", Val.num 9)] n = none)
    ∧ (∃ k v, (k, v) ∈ [("extra", Val.num 9)]
        ∧ assocGet wfDeploy.parameters k = none)
    ∧ (merge_and_validate_execution_parameters wfDeploy.parameters "deploy"
          [("extra", Val.num 9)] false
        = .error (.missingParams "deploy"
            (missingOf wfDeploy.parameters [("extra", Val.num 9)]))
      ∧ ∀ cs, merge_and_validate_execution_parameters wfDeploy.parameters
          "deploy" [("extra", Val.num 9)] false
          ≠ .error (.customParams "deploy" cs)) :=
  ⟨⟨"x", ⟨none⟩, by decide, rfl, by decide⟩,
    ⟨"extra", Val.num 9, by decide, by decide⟩,
    missing_check_precedes_custom_check wfDeploy.parameters "deploy"
      [("extra", Val.num 9)]
      ⟨"x", ⟨none⟩, by decide, rfl, by decide⟩
      ⟨"extra", Val.num 9, by decide, by decide⟩⟩

/-- The node named by a mapping error. -/
def ConfigErr.nodeName : ConfigErr → String
  | .importError _ node _ => node
  | .attributeError _ _ node _ => node

/-- The operation kind named by a mapping error. -/
def ConfigErr.opKind : ConfigErr → String
  | .importError _ _ tpe => tpe
  | .attributeError _ _ _ tpe => tpe

/-- A mapping error names exactly the node and operation kind it was
raised for. -/
theorem get_module_method_error_names (menv : ModuleEnv) (p tpe nid : String)
    (e : ConfigErr) (h : get_module_method menv p tpe nid = .error e) :
    e.nodeName = nid ∧ e.opKind = tpe := by
  simp only [get_module_method] at h
  split at h
  · injection h with h'
    subst h'
    exact ⟨rfl, rfl⟩
  · split at h
    · simp at h
    · injection h with h'
      subst h'
      exact ⟨rfl, rfl⟩

/-- If scanning a descriptor list fails, the error is the mapping error
of one of its descriptors. -/
theorem scanDescriptors_error_inv (menv : ModuleEnv) (nid : String)
    (ds : List (String × Operation)) (e : ConfigErr)
    (h : scanDescriptors menv nid ds = .error e) :
    ∃ tpe op, (tpe, op) ∈ ds
      ∧ get_module_method menv op.operation tpe nid = .error e := by
  induction ds with
  | nil => simp [scanDescriptors] at h
  | cons hd tl ih =>
      obtain ⟨tpe₀, op₀⟩ := hd
      simp only [scanDescriptors] at h
      cases hr : get_module_method menv op₀.operation tpe₀ nid with
      | error e' =>
          rw [hr] at h
          simp only [] at h
          injection h with h'
          subst h'
          exact ⟨tpe₀, op₀, List.mem_cons_self _ _, hr⟩
      | ok m =>
          rw [hr] at h
          simp only [] at h
          obtain ⟨tpe, op, hmem, hre⟩ := ih h
          exact ⟨tpe, op, List.mem_cons_of_mem _ hmem, hre⟩

/-- If scanning a descriptor list succeeds, every descriptor resolves. -/
theorem scanDescriptors_ok_all (menv : ModuleEnv) (nid : String)
    (ds : List (String × Operation))
    (h : scanDescriptors menv nid ds = .ok ()) :
    ∀ tpe op, (tpe, op) ∈ ds →
      ∃ m, get_module_method menv op.operation tpe nid = .ok m := by
  induction ds with
  | nil => intro tpe op h'; simp at h'
  | cons hd tl ih =>
      obtain ⟨tpe₀, op₀⟩ := hd
      simp only [scanDescriptors] at h
      cases hr : get_module_method menv op₀.operation tpe₀ nid with
      | error e' =>
          rw [hr] at h
          simp at h
      | ok m =>
          rw [hr] at h
          simp only [] at h
          intro tpe op hmem
          rcases List.mem_cons.mp hmem with he | he
          · injection he with h1 h2
            subst h1
            subst h2
            exact ⟨m, hr⟩
          · exact ih h tpe op he

/-- If any node of the plan has an unresolvable descriptor, the
validation pass fails, and the error is the mapping error of one of the
plan's descriptors. -/
theorem prepare_nodes_error_of_bad (menv : ModuleEnv) (nodes : List PNode)
    (hbad : ∃ n, n ∈ nodes ∧ ∃ tpe op, (tpe, op) ∈ nodeDescriptors n
      ∧ ∃ e, get_module_method menv op.operation tpe n.id = .error e) :
    ∃ e, prepare_nodes menv nodes = .error e
      ∧ ∃ n, n ∈ nodes ∧ ∃ tpe op, (tpe, op) ∈ nodeDescriptors n
        ∧ get_module_method menv op.operation tpe n.id = .error e := by
  induction nodes with
  | nil =>
      obtain ⟨n, hn, _⟩ := hbad
      simp at hn
  | cons n₀ tl ih =>
      cases hs : scanDescriptors menv n₀.id (nodeDescriptors n₀) with
      | error e =>
          obtain ⟨tpe, op, hmem, hre⟩ :=
            scanDescriptors_error_inv menv n₀.id (nodeDescriptors n₀) e hs
          refine ⟨e, by simp [prepare_nodes, hs], n₀,
            List.mem_cons_self _ _, tpe, op, hmem, hre⟩
      | ok u =>
          cases u
          obtain ⟨n, hn, tpe, op, hmem, e, hre⟩ := hbad
          have hn' : n ∈ tl := by
            rcases List.mem_cons.mp hn with hh | hh
            · subst hh
              obtain ⟨m, hm⟩ :=
                scanDescriptors_ok_all menv n.id (nodeDescriptors n) hs
                  tpe op hmem
              rw [hm] at hre
              cases hre
            · exact hh
          obtain ⟨e', hp, n', hn'', tpe', op', hmem', hre'⟩ :=
            ih ⟨n, hn', tpe, op, hmem, e, hre⟩
          exact ⟨e', by simp [prepare_nodes, hs, hp], n',
            List.mem_cons_of_mem _ hn'', tpe', op', hmem', hre'⟩

/-- C9: if any operation descriptor of any node — own operations or any
relationship's source-side or target-side operations — fails to resolve,
`Environment` construction fails before any workflow can run: the result
is an error, no `Env` value exists, and the error is the mapping error of
a failing descriptor, naming that descriptor's node, operation kind and
unresolved module/attribute. -/
theorem construction_fails_on_unresolved_mapping
    (menv : ModuleEnv) (nodes : List PNode)
    (node_instances : List NodeInstance)
    (hbad : ∃ n, n ∈ nodes ∧ ∃ tpe op, (tpe, op) ∈ nodeDescriptors n
      ∧ ∃ e, get_module_method menv op.operation tpe n.id = .error e) :
    ∃ e, mkEnv menv nodes node_instances = .error e
      ∧ ∃ n, n ∈ nodes ∧ ∃ tpe op, (tpe, op) ∈ nodeDescriptors n
        ∧ get_module_method menv op.operation tpe n.id = .error e
        ∧ e.nodeName = n.id ∧ e.opKind = tpe := by
  obtain ⟨e, hp, n, hn, tpe, op, hmem, hre⟩ :=
    prepare_nodes_error_of_bad menv nodes hbad
  obtain ⟨hnn, hkk⟩ :=
    get_module_method_error_names menv op.operation tpe n.id e hre
  exact ⟨e, by simp [mkEnv, hp], n, hn, tpe, op, hmem, hre, hnn, hkk⟩

/-- Node fixture for the C9 witness: its `create` operation maps to a
module that does not exist in the module environment. -/
def nodeBad : PNode :=
  { id := "n1", operations := [("create", ⟨"pkg.bad.run"⟩)],
    relationships := [] }

/-- Module environment fixture for the C9 witness: only `pkg.mod`
exists. -/
def menvPkg : ModuleEnv := ⟨[("pkg.mod", ["run"])]⟩

/-- Witness for C9: constructing against `nodeBad` fails with the import
error naming node `n1`, kind `operations` and module `pkg.bad`. -/
theorem construction_fails_on_unresolved_mapping_witness :
    (∃ n, n ∈ [nodeBad] ∧ ∃ tpe op, (tpe, op) ∈ nodeDescriptors n
      ∧ ∃ e, get_module_method menvPkg op.operation tpe n.id = .error e)
    ∧ (∃ e, mkEnv menvPkg [nodeBad] [instA] = .error e
        ∧ ∃ n, n ∈ [nodeBad] ∧ ∃ tpe op, (tpe, op) ∈ nodeDescriptors n
          ∧ get_module_method menvPkg op.operation tpe n.id = .error e
          ∧ e.nodeName = n.id ∧ e.opKind = tpe) :=
  ⟨⟨nodeBad, by decide, "operations", ⟨"pkg.bad.run"⟩, by decide,
      ⟨.importError "pkg.bad" "n1" "operations", by rfl⟩⟩,
    construction_fails_on_unresolved_mapping menvPkg [nodeBad] [instA]
      ⟨nodeBad, by decide, "operations", ⟨"pkg.bad.run"⟩, by decide,
        ⟨.importError "pkg.bad" "n1" "operations", by rfl⟩⟩⟩

/-- C8: `outputs()` keeps every output name in place; a literal output
value passes through unchanged; a get-attribute output value is replaced
by a list with exactly one entry per node instance whose `node_id` equals
the named node, each entry being that instance's runtime-property value
for the named attribute (`none` when the property is unset or the
instance has no runtime properties). -/
theorem outputs_get_attribute_resolution
    (instances : List NodeInstance) (outs : List (String × OutExpr)) :
    (outputsResolve instances outs).map (fun p => p.1)
        = outs.map (fun p => p.1)
      ∧ (∀ k v, (k, OutExpr.lit v) ∈ outs →
          (k, OutRes.lit v) ∈ outputsResolve instances outs)
      ∧ (∀ k nn an, (k, OutExpr.getAttribute nn an) ∈ outs →
          ∃ vs, (k, OutRes.attrs vs) ∈ outputsResolve instances outs
            ∧ List.Forall₂
                (fun i v =>
                  v = assocGet (i.runtime_properties.getD []) an)
                (instances.filter (fun i => i.node_id = nn)) vs) := by
  refine ⟨?_, ?_, ?_⟩
  · rw [outputsResolve, List.map_map]
    apply List.map_congr_left
    rintro ⟨k, expr⟩ hmem
    cases expr <;> rfl
  · intro k v hmem
    exact List.mem_map.mpr ⟨(k, OutExpr.lit v), hmem, rfl⟩
  · intro k nn an hmem
    refine ⟨collectAttributes instances nn an,
      List.mem_map.mpr ⟨(k, OutExpr.getAttribute nn an), hmem, rfl⟩, ?_⟩
    unfold collectAttributes
    rw [List.forall₂_map_right_iff]
    exact (List.forall₂_same).mpr (fun x _ => rfl)

/-- Witness for C8 at a concrete store and outputs mapping (one
get-attribute output over `web`, one literal output). -/
theorem outputs_get_attribute_resolution_witness :
    (outputsResolve (memAB.get_node_instances)
        [("ip", OutExpr.getAttribute "web" "ip"),
         ("k", OutExpr.lit (Val.num 7))]).map (fun p => p.1)
        = [("ip", OutExpr.getAttribute "web" "ip"),
           ("k", OutExpr.lit (Val.num 7))].map (fun p => p.1)
      ∧ (∀ k v, (k, OutExpr.lit v)
            ∈ [("ip", OutExpr.getAttribute "web" "ip"),
               ("k", OutExpr.lit (Val.num 7))] →
          (k, OutRes.lit v) ∈ outputsResolve (memAB.get_node_instances)
            [("ip", OutExpr.getAttribute "web" "ip"),
             ("k", OutExpr.lit (Val.num 7))])
      ∧ (∀ k nn an, (k, OutExpr.getAttribute nn an)
            ∈ [("ip", OutExpr.getAttribute "web" "ip"),
               ("k", OutExpr.lit (Val.num 7))] →
          ∃ vs, (k, OutRes.attrs vs)
              ∈ outputsResolve (memAB.get_node_instances)
                [("ip", OutExpr.getAttribute "web" "ip"),
                 ("k", OutExpr.lit (Val.num 7))]
            ∧ List.Forall₂
                (fun i v =>
                  v = assocGet (i.runtime_properties.getD []) an)
                ((memAB.get_node_instances).filter
                  (fun i => i.node_id = nn)) vs) :=
  outputs_get_attribute_resolution (memAB.get_node_instances)
    [("ip", OutExpr.getAttribute "web" "ip"),
     ("k", OutExpr.lit (Val.num 7))]

end CloudifyLocal
